import Mathlib

/-!
Verification development for the blockml graph validation / compilation /
execution engine.  The definitions below are a shallow embedding of the
TypeScript sources:

* `tensor-validation` (dtypes, block catalog, connection/graph validation,
  shape inference);
* `webgpu-runtime` (topological sort, shape calculation, forward pass,
  gradient update, loss, training loop).

JavaScript numbers are modelled as `Int` where the code only does integer
arithmetic (shape dimensions) and as `ℚ` where the code computes with
floats (weights, activations, losses).  Transcendental functions
(`Math.exp`, `Math.sqrt`, `Math.tanh`) are abstract parameters of the
embedding, and `Math.random()` is an explicit stream of draws threaded
through the functions that consume it.  The JS idiom `x || d` (default on
a falsy value) is modelled by `jsOrInt` on optional numbers: absent and
`0` both fall back to the default, any other value is kept.
-/

namespace BlockML

/-- The three tensor dtypes of `TensorShape.dtype`. -/
inductive Dtype
  | float32
  | int32
  | bool
  deriving DecidableEq, Repr

/-- A dimension slot: `none` is the JS `null` (batch sentinel); `some (-1)`
is the unknown sentinel; any other `some n` is a concrete dimension. -/
abbrev Dim := Option Int

/-- `TensorShape` from tensor-validation. -/
structure TensorShape where
  dimensions : List Dim
  dtype : Dtype
  deriving DecidableEq, Repr

/-- `BlockPort` from tensor-validation. -/
structure BlockPort where
  name : String
  shape : TensorShape
  description : String
  deriving DecidableEq, Repr

/-- `BlockDefinition` from tensor-validation.  The default-parameter bag of
the source is never read by the validation logic and is omitted. -/
structure BlockDefinition where
  type : String
  inputs : List BlockPort
  outputs : List BlockPort
  deriving DecidableEq, Repr

/-- The parameter bag of a node (`node.data.parameters`) restricted to the
keys the validator reads: `units`, `filters`, `pool_size`, `dim`.  A key
that was never set is `none`. -/
structure Params where
  units : Option Int := none
  filters : Option Int := none
  pool_size : Option Int := none
  dim : Option Int := none
  deriving DecidableEq, Repr

/-- `node.data`: the block type tag plus the parameter overrides. -/
structure Block where
  blockType : String
  label : String := ""
  parameters : Params := {}
  deriving DecidableEq, Repr

/-- JS `x || d` on an optional number: both an absent key and `0` are falsy
and fall back to the default `d`. -/
def jsOrInt (x : Option Int) (d : Int) : Int :=
  match x with
  | none => d
  | some v => if v = 0 then d else v

/-- The `BLOCK_DEFINITIONS` catalog, transcribed entry by entry. -/
def blockDefinitions : List (String × BlockDefinition) :=
  [ ("DataLoader",
     { type := "DataLoader"
       inputs := []
       outputs :=
         [ { name := "data", shape := { dimensions := [none, some (-1)], dtype := .float32 },
             description := "Training data batches" }
         , { name := "labels", shape := { dimensions := [none, some (-1)], dtype := .int32 },
             description := "Training labels" } ] })
  , ("Dense",
     { type := "Dense"
       inputs :=
         [ { name := "input", shape := { dimensions := [none, some (-1)], dtype := .float32 },
             description := "Input features" } ]
       outputs :=
         [ { name := "output", shape := { dimensions := [none, some (-1)], dtype := .float32 },
             description := "Dense layer output" } ] })
  , ("Conv2D",
     { type := "Conv2D"
       inputs :=
         [ { name := "input",
             shape := { dimensions := [none, some (-1), some (-1), some (-1)], dtype := .float32 },
             description := "4D image tensor" } ]
       outputs :=
         [ { name := "output",
             shape := { dimensions := [none, some (-1), some (-1), some (-1)], dtype := .float32 },
             description := "Convolved feature maps" } ] })
  , ("MaxPooling2D",
     { type := "MaxPooling2D"
       inputs :=
         [ { name := "input",
             shape := { dimensions := [none, some (-1), some (-1), some (-1)], dtype := .float32 },
             description := "4D feature maps" } ]
       outputs :=
         [ { name := "output",
             shape := { dimensions := [none, some (-1), some (-1), some (-1)], dtype := .float32 },
             description := "Pooled feature maps" } ] })
  , ("Flatten",
     { type := "Flatten"
       inputs :=
         [ { name := "input", shape := { dimensions := [none, some (-1)], dtype := .float32 },
             description := "Multi-dimensional input" } ]
       outputs :=
         [ { name := "output", shape := { dimensions := [none, some (-1)], dtype := .float32 },
             description := "Flattened output" } ] })
  , ("Dropout",
     { type := "Dropout"
       inputs :=
         [ { name := "input", shape := { dimensions := [none, some (-1)], dtype := .float32 },
             description := "Input tensor" } ]
       outputs :=
         [ { name := "output", shape := { dimensions := [none, some (-1)], dtype := .float32 },
             description := "Dropout applied" } ] })
  , ("LSTM",
     { type := "LSTM"
       inputs :=
         [ { name := "input",
             shape := { dimensions := [none, some (-1), some (-1)], dtype := .float32 },
             description := "Sequential input" } ]
       outputs :=
         [ { name := "output", shape := { dimensions := [none, some (-1)], dtype := .float32 },
             description := "LSTM output" } ] })
  , ("Add",
     { type := "Add"
       inputs :=
         [ { name := "input1", shape := { dimensions := [none, some (-1)], dtype := .float32 },
             description := "First input tensor" }
         , { name := "input2", shape := { dimensions := [none, some (-1)], dtype := .float32 },
             description := "Second input tensor" } ]
       outputs :=
         [ { name := "output", shape := { dimensions := [none, some (-1)], dtype := .float32 },
             description := "Element-wise sum" } ] })
  , ("Concatenate",
     { type := "Concatenate"
       inputs :=
         [ { name := "input1", shape := { dimensions := [none, some (-1)], dtype := .float32 },
             description := "First input tensor" }
         , { name := "input2", shape := { dimensions := [none, some (-1)], dtype := .float32 },
             description := "Second input tensor" } ]
       outputs :=
         [ { name := "output", shape := { dimensions := [none, some (-1)], dtype := .float32 },
             description := "Concatenated tensor" } ] })
  , ("Activation",
     { type := "Activation"
       inputs :=
         [ { name := "input", shape := { dimensions := [none, some (-1)], dtype := .float32 },
             description := "Input tensor" } ]
       outputs :=
         [ { name := "output", shape := { dimensions := [none, some (-1)], dtype := .float32 },
             description := "Activated tensor" } ] })
  , ("BatchNorm",
     { type := "BatchNorm"
       inputs :=
         [ { name := "input", shape := { dimensions := [none, some (-1)], dtype := .float32 },
             description := "Input tensor" } ]
       outputs :=
         [ { name := "output", shape := { dimensions := [none, some (-1)], dtype := .float32 },
             description := "Normalized tensor" } ] })
  , ("LayerNorm",
     { type := "LayerNorm"
       inputs :=
         [ { name := "input", shape := { dimensions := [none, some (-1)], dtype := .float32 },
             description := "Input tensor" } ]
       outputs :=
         [ { name := "output", shape := { dimensions := [none, some (-1)], dtype := .float32 },
             description := "Layer normalized tensor" } ] })
  , ("MultiHeadAttention",
     { type := "MultiHeadAttention"
       inputs :=
         [ { name := "query",
             shape := { dimensions := [none, some (-1), some (-1)], dtype := .float32 },
             description := "Query tensor" }
         , { name := "key",
             shape := { dimensions := [none, some (-1), some (-1)], dtype := .float32 },
             description := "Key tensor" }
         , { name := "value",
             shape := { dimensions := [none, some (-1), some (-1)], dtype := .float32 },
             description := "Value tensor" } ]
       outputs :=
         [ { name := "output",
             shape := { dimensions := [none, some (-1), some (-1)], dtype := .float32 },
             description := "Attention output" } ] })
  , ("CrossEntropy",
     { type := "CrossEntropy"
       inputs :=
         [ { name := "predictions", shape := { dimensions := [none, some (-1)], dtype := .float32 },
             description := "Model predictions" }
         , { name := "targets", shape := { dimensions := [none, some (-1)], dtype := .int32 },
             description := "True labels" } ]
       outputs :=
         [ { name := "loss", shape := { dimensions := [], dtype := .float32 },
             description := "Cross-entropy loss" } ] })
  , ("MSE",
     { type := "MSE"
       inputs :=
         [ { name := "predictions", shape := { dimensions := [none, some (-1)], dtype := .float32 },
             description := "Model predictions" }
         , { name := "targets", shape := { dimensions := [none, some (-1)], dtype := .float32 },
             description := "True targets" } ]
       outputs :=
         [ { name := "loss", shape := { dimensions := [], dtype := .float32 },
             description := "Mean squared error" } ] })
  , ("SGD",
     { type := "SGD"
       inputs :=
         [ { name := "gradients", shape := { dimensions := [some (-1)], dtype := .float32 },
             description := "Model gradients" } ]
       outputs :=
         [ { name := "updates", shape := { dimensions := [some (-1)], dtype := .float32 },
             description := "Parameter updates" } ] })
  , ("Adam",
     { type := "Adam"
       inputs :=
         [ { name := "gradients", shape := { dimensions := [some (-1)], dtype := .float32 },
             description := "Model gradients" } ]
       outputs :=
         [ { name := "updates", shape := { dimensions := [some (-1)], dtype := .float32 },
             description := "Parameter updates" } ] })
  ]

/-- Catalog lookup `BLOCK_DEFINITIONS[blockType]`. -/
def lookupBlockDef (blockType : String) : Option BlockDefinition :=
  (blockDefinitions.find? (fun p => p.1 == blockType)).map (·.2)

/-- The error messages produced by `TensorValidator`, abstracted from
interpolated strings to a tagged type carrying the interpolated data.
`shapeIncompat` models the prefix that `validateConnection` adds in front
of a shape-validation error. -/
inductive VError
  | unknownBlockType (blockType : String)
  | portNotFound (port : String) (blockType : String)
  | dtypeMismatch (source target : Dtype)
  | dimCountMismatch (source target : Nat)
  | shapeMismatch (index : Nat) (source target : Int)
  | shapeIncompat (e : VError)
  | graphContext (sourceLabel targetLabel : String) (e : VError)
  | undef
  deriving DecidableEq, Repr

/-- `ValidationResult` from tensor-validation. -/
structure ValidationResult where
  isValid : Bool
  error : Option VError := none
  warning : Option String := none
  inferredShape : Option TensorShape := none
  deriving DecidableEq, Repr

/-- `TensorValidator.getCompatibleTypes`: the list of target dtypes a
source dtype may feed. -/
def getCompatibleTypes (dtype : Dtype) : List Dtype :=
  match dtype with
  | .float32 => [.float32]
  | .int32 => [.int32, .float32]
  | .bool => [.bool, .int32, .float32]

/-- The dtype step of `validateConnection`: when the two dtypes differ and
the target is not in the source's compatible list, a data-type-mismatch
error is produced; otherwise the check passes. -/
def dtypeCheck (source target : Dtype) : Option VError :=
  if source ≠ target ∧ ¬ (target ∈ getCompatibleTypes source) then
    some (.dtypeMismatch source target)
  else
    none

/-- The dimension-by-dimension loop of `validateShapeCompatibility`: the
first index where both sides are concrete (neither `null` nor `-1`) and
differ, with the two offending values. -/
def firstShapeMismatch : Nat → List Dim → List Dim → Option (Nat × Int × Int)
  | _, [], _ => none
  | _, _ :: _, [] => none
  | i, a :: as, b :: bs =>
    match a, b with
    | some x, some y =>
      if x = -1 ∨ y = -1 then firstShapeMismatch (i + 1) as bs
      else if x ≠ y then some (i, x, y)
      else firstShapeMismatch (i + 1) as bs
    | _, _ => firstShapeMismatch (i + 1) as bs

/-- `TensorValidator.validateShapeCompatibility`.  The two parameter bags
are accepted and ignored, exactly as in the source. -/
def validateShapeCompatibility (sourceShape targetShape : TensorShape)
    (_sourceParams _targetParams : Params) : ValidationResult :=
  let sourceDims := sourceShape.dimensions
  let targetDims := targetShape.dimensions
  if sourceDims.length = 0 ∧ targetDims.length = 0 then
    { isValid := true }
  else if sourceDims.length ≠ targetDims.length then
    if some (-1) ∈ targetDims then
      { isValid := true, warning := some "Shape will be inferred at runtime" }
    else
      { isValid := false
        error := some (.dimCountMismatch sourceDims.length targetDims.length) }
  else
    match firstShapeMismatch 0 sourceDims targetDims with
    | some (i, x, y) => { isValid := false, error := some (.shapeMismatch i x y) }
    | none => { isValid := true }

/-- The `MaxPooling2D` case of `inferOutputShape`: on a rank-4 dimension
list, each of the two spatial slots is floor-divided by the pool size
unless it is `null` or `-1`; everything else passes through. -/
def maxPoolInfer (poolSize : Int) (dims : List Dim) : List Dim :=
  if dims.length = 4 then
    let dims1 :=
      match dims.getD 1 none with
      | some v => if v = -1 then dims else dims.set 1 (some (Int.fdiv v poolSize))
      | none => dims
    match dims1.getD 2 none with
    | some v => if v = -1 then dims1 else dims1.set 2 (some (Int.fdiv v poolSize))
    | none => dims1
  else dims

/-- `TensorValidator.inferOutputShape`: start from the output port's shape
template and overwrite the templated slot(s) according to the block type
and its effective parameters. -/
def inferOutputShape (block : Block) (portName : String) : Option TensorShape :=
  match lookupBlockDef block.blockType with
  | none => none
  | some blockDef =>
    match blockDef.outputs.find? (fun p => p.name == portName) with
    | none => none
    | some portDef =>
      let dims := portDef.shape.dimensions
      let dims' :=
        if block.blockType = "Dense" then
          if 2 ≤ dims.length then dims.set 1 (some (jsOrInt block.parameters.units 64)) else dims
        else if block.blockType = "Conv2D" then
          if dims.length = 4 then dims.set 3 (some (jsOrInt block.parameters.filters 32)) else dims
        else if block.blockType = "MaxPooling2D" then
          maxPoolInfer (jsOrInt block.parameters.pool_size 2) dims
        else if block.blockType = "LSTM" then
          if 2 ≤ dims.length then dims.set 1 (some (jsOrInt block.parameters.units 128)) else dims
        else if block.blockType = "MultiHeadAttention" then
          if 3 ≤ dims.length then dims.set 2 (some (jsOrInt block.parameters.dim 512)) else dims
        else dims
      some { dimensions := dims', dtype := portDef.shape.dtype }

/-- `TensorValidator.validateConnection`. -/
def validateConnection (sourceBlock : Block) (sourcePort : String)
    (targetBlock : Block) (targetPort : String) : ValidationResult :=
  match lookupBlockDef sourceBlock.blockType, lookupBlockDef targetBlock.blockType with
  | none, _ =>
    { isValid := false, error := some (.unknownBlockType sourceBlock.blockType) }
  | some _, none =>
    { isValid := false, error := some (.unknownBlockType targetBlock.blockType) }
  | some sourceDef, some targetDef =>
    match sourceDef.outputs.find? (fun p => p.name == sourcePort),
          targetDef.inputs.find? (fun p => p.name == targetPort) with
    | none, _ =>
      { isValid := false, error := some (.portNotFound sourcePort sourceBlock.blockType) }
    | some _, none =>
      { isValid := false, error := some (.portNotFound targetPort targetBlock.blockType) }
    | some sourcePortDef, some targetPortDef =>
      match dtypeCheck sourcePortDef.shape.dtype targetPortDef.shape.dtype with
      | some e => { isValid := false, error := some e }
      | none =>
        let shapeValidation :=
          validateShapeCompatibility sourcePortDef.shape targetPortDef.shape
            sourceBlock.parameters targetBlock.parameters
        if !shapeValidation.isValid then
          { shapeValidation with error := shapeValidation.error.map .shapeIncompat }
        else
          { isValid := true, inferredShape := inferOutputShape sourceBlock sourcePort }

/-- A graph node as seen by the validator and the runtime: `id` plus
`data` (block type, label, parameters). -/
structure GNode where
  id : String
  data : Block
  deriving DecidableEq, Repr

/-- A react-flow connection: endpoint node ids plus the port handles. -/
structure Connection where
  source : String
  target : String
  sourceHandle : String := ""
  targetHandle : String := ""
  deriving DecidableEq, Repr

/-- `TensorValidator.validateGraph`: per-connection failures, in
connection order; a connection whose source or target id matches no node
is skipped; valid results are dropped. -/
def validateGraph (nodes : List GNode) (connections : List Connection) :
    List ValidationResult :=
  connections.foldl
    (fun results connection =>
      match nodes.find? (fun n => n.id == connection.source),
            nodes.find? (fun n => n.id == connection.target) with
      | some sourceNode, some targetNode =>
        let result := validateConnection sourceNode.data connection.sourceHandle
          targetNode.data connection.targetHandle
        if !result.isValid then
          results ++ [{ result with
            error := some (.graphContext sourceNode.data.label targetNode.data.label
              (result.error.getD .undef)) }]
        else results
      | _, _ => results)
    []

/-! ## WebGPU runtime: shapes, executor, trainer (webgpu-runtime.ts) -/

/-- A react-flow edge as consumed by the runtime (only `source`/`target`
are read). -/
structure Edge where
  source : String
  target : String
  deriving DecidableEq, Repr

/-- The runtime-side parameter bag (`node.data.parameters`) restricted to
the keys `calculateOutputShape` reads. -/
structure RParams where
  inputShape : Option (List Int) := none
  units : Option Int := none
  filters : Option Int := none
  poolSize : Option (List Int) := none
  deriving DecidableEq, Repr

/-- A node as consumed by the runtime shape calculator. -/
structure RNode where
  id : String
  blockType : String
  parameters : RParams := {}
  deriving DecidableEq, Repr

/-- JS `l[i] || d` on an integer array: out-of-range and `0` both give the
default. -/
def jsIdxOr (l : List Int) (i : Nat) (d : Int) : Int :=
  match l.get? i with
  | some v => if v = 0 then d else v
  | none => d

/-- `WebGPURuntime.getInputShapeForNode`: the recorded output shape of the
source of the first incoming edge, if any. -/
def getInputShapeForNode (nodeId : String) (nodeOutputShapes : List (String × List Int))
    (edges : List Edge) : Option (List Int) :=
  match edges.find? (fun e => e.target == nodeId) with
  | some e => (nodeOutputShapes.find? (fun p => p.1 == e.source)).map (·.2)
  | none => none

/-- `WebGPURuntime.calculateOutputShape`. -/
def calculateOutputShape (node : RNode) (nodeOutputShapes : List (String × List Int))
    (edges : List Edge) : List Int :=
  let inputShape := getInputShapeForNode node.id nodeOutputShapes edges
  if node.blockType = "DataLoader" then
    node.parameters.inputShape.getD [28, 28, 1]
  else if node.blockType = "Dense" then
    [jsOrInt node.parameters.units 128]
  else if node.blockType = "Conv2D" then
    match inputShape with
    | some l =>
      if 2 ≤ l.length then [l.getD 0 0, l.getD 1 0, jsOrInt node.parameters.filters 32]
      else [28, 28, jsOrInt node.parameters.filters 32]
    | none => [28, 28, jsOrInt node.parameters.filters 32]
  else if node.blockType = "MaxPooling2D" then
    match inputShape with
    | some l =>
      if 2 ≤ l.length then
        let poolSize := node.parameters.poolSize.getD [2, 2]
        [Int.fdiv (l.getD 0 0) (poolSize.getD 0 0), Int.fdiv (l.getD 1 0) (poolSize.getD 1 0),
          jsIdxOr l 2 1]
      else [14, 14, 1]
    | none => [14, 14, 1]
  else if node.blockType = "Flatten" then
    match inputShape with
    | some l => [l.foldl (· * ·) 1]
    | none => [784]
  else
    inputShape.getD [128]

/-- The transcendental float operations the executor delegates to
(`Math.exp`, `Math.sqrt`, `Math.tanh`), abstract in the embedding. -/
structure NumEnv where
  exp : ℚ → ℚ
  sqrt : ℚ → ℚ
  tanh : ℚ → ℚ

/-- A compiled layer (`createLayer` results), one constructor per
`layer.type` tag. -/
inductive Layer
  | inputL (shape : List Int) (batchSize : Int)
  | dense (units : Nat) (activation : String) (weights bias : List ℚ)
  | conv2d (filters : Nat) (kh kw : Nat) (weights bias : List ℚ)
  | maxpool2d (ph pw : Nat)
  | flatten
  | dropout (rate : ℚ)
  | activationL (activation : String)
  | batchnorm (gamma beta : List ℚ)
  deriving DecidableEq, Repr

/-- A compiled model: the topologically ordered layer list (the other
`buildRealModel` fields do not feed the executor). -/
structure Model where
  layers : List Layer
  deriving DecidableEq, Repr

/-- `WebGPURuntime.applyActivation`: elementwise relu / sigmoid / tanh,
softmax via exponentials normalized by their sum, linear for anything
else. -/
def applyActivation (env : NumEnv) (input : List ℚ) (activation : String) : List ℚ :=
  if activation = "relu" then input.map (fun x => max 0 x)
  else if activation = "sigmoid" then input.map (fun x => 1 / (1 + env.exp (-x)))
  else if activation = "tanh" then input.map env.tanh
  else if activation = "softmax" then
    let exps := input.map env.exp
    let s := exps.sum
    exps.map (fun e => e / s)
  else input

/-- The matrix-vector core of `computeDenseLayer`:
`output[i] = bias[i] + Σ_j input[j] · weights[j·units + i]`. -/
def denseCore (units : Nat) (weights bias input : List ℚ) : List ℚ :=
  (List.range units).map fun i =>
    bias.getD i 0 +
      ((List.range input.length).map fun j => input.getD j 0 * weights.getD (j * units + i) 0).sum

/-- `computeConv2DLayer`: the simplified flattened convolution; output
size `⌊len/4⌋·filters`, each entry a ReLU-ed kernel window sum. -/
def conv2dCore (filters kh kw : Nat) (weights bias input : List ℚ) : List ℚ :=
  let inner := input.length / 4
  (List.range (inner * filters)).map fun idx =>
    let f := idx / inner
    let i := idx % inner
    let startIdx := i * (kh * kw)
    let s := bias.getD f 0 +
      ((List.range (min (kh * kw) (input.length - startIdx))).map fun k =>
        if startIdx + k < input.length then
          input.getD (startIdx + k) 0 * weights.getD (f * (kh * kw) + k) 0
        else 0).sum
    max 0 s

/-- `computeMaxPool2DLayer`: block max over windows of `ph·pw` consecutive
entries of the flattened buffer. -/
def maxPoolCore (ph pw : Nat) (input : List ℚ) : List ℚ :=
  let rf := ph * pw
  (List.range (input.length / rf)).map fun i =>
    let window := (List.range rf).filterMap
      (fun j => if i * rf + j < input.length then input.get? (i * rf + j) else none)
    window.foldl max (window.headD 0)

/-- `computeBatchNormLayer`: per-call mean/variance normalization, then
scale/shift by `gamma`/`beta` (indexed modulo their length). -/
def batchNormCore (env : NumEnv) (gamma beta input : List ℚ) : List ℚ :=
  let n : ℚ := input.length
  let mean := input.sum / n
  let variance := (input.map (fun x => (x - mean) ^ 2)).sum / n
  let std := env.sqrt (variance + 1 / 10 ^ 8)
  (List.range input.length).map fun i =>
    gamma.getD (i % gamma.length) 0 * ((input.getD i 0 - mean) / std) +
      beta.getD (i % beta.length) 0

/-- `computeDropoutLayer` in training mode: each entry is kept (scaled by
`1/(1-rate)`) when its random draw exceeds `rate`, else zeroed; one draw
is consumed per entry. -/
def dropoutCore (rate : ℚ) (input rng : List ℚ) : List ℚ :=
  (List.range input.length).map fun i =>
    if rate < rng.getD i 0 then input.getD i 0 * (1 / (1 - rate)) else 0

/-- `computeLayerOutput`: dispatch on the layer kind; returns the output
and the remaining random stream (only training-mode dropout consumes
draws). -/
def computeLayerOutput (env : NumEnv) (training : Bool) (layer : Layer)
    (input rng : List ℚ) : List ℚ × List ℚ :=
  match layer with
  | .inputL _ _ => (input, rng)
  | .dense units activation weights bias =>
    (applyActivation env (denseCore units weights bias input) activation, rng)
  | .conv2d filters kh kw weights bias => (conv2dCore filters kh kw weights bias input, rng)
  | .maxpool2d ph pw => (maxPoolCore ph pw input, rng)
  | .flatten => (input, rng)
  | .dropout rate =>
    if !training then (input, rng)
    else (dropoutCore rate input rng, rng.drop input.length)
  | .activationL activation => (applyActivation env input activation, rng)
  | .batchnorm gamma beta => (batchNormCore env gamma beta input, rng)

/-- `WebGPURuntime.forwardPass`: thread the activation vector through the
layers in stored order, also threading the ambient random stream. -/
def forwardPassCore (env : NumEnv) (training : Bool) (model : Model)
    (input rng : List ℚ) : List ℚ × List ℚ :=
  model.layers.foldl
    (fun acc layer => computeLayerOutput env training layer acc.1 acc.2) (input, rng)

/-- The runtime object's mutable fields that the executor and trainer
touch: the compiled model, the training flag, and the ambient random
stream. -/
structure RTState where
  model : Model
  isTraining : Bool
  rng : List ℚ

/-- `forwardPass` as a state transformer on the runtime object: reads
`this.model` and `this.isTraining`, consumes randomness, writes nothing
else back. -/
def forwardPassS (env : NumEnv) (st : RTState) (input : List ℚ) : List ℚ × RTState :=
  ((forwardPassCore env st.isTraining st.model input st.rng).1,
    { st with rng := (forwardPassCore env st.isTraining st.model input st.rng).2 })

/-- The weight update of `backpropagate` for one dense layer:
`w[j] -= 0.001 · ((random - 0.5) · 0.01)`, one draw per weight. -/
def updateDenseWeights (weights rng : List ℚ) : List ℚ :=
  (List.range weights.length).map fun j =>
    weights.getD j 0 - (1 / 1000) * ((rng.getD j 0 - 1 / 2) * (1 / 100))

/-- The layer loop of `backpropagate` over the reversed layer list: dense
layers get their weights perturbed, every other layer passes through
untouched. -/
def backpropLayersRev : List Layer → List ℚ → List Layer × List ℚ
  | [], rng => ([], rng)
  | .dense units activation weights bias :: rest, rng =>
    let weights' := updateDenseWeights weights rng
    let (rest', rng') := backpropLayersRev rest (rng.drop weights.length)
    (.dense units activation weights' bias :: rest', rng')
  | other :: rest, rng =>
    let (rest', rng') := backpropLayersRev rest rng
    (other :: rest', rng')

/-- `WebGPURuntime.backpropagate`: iterate the layers from last to first;
the output gradient argument is accepted and never used, as in the
source. -/
def backpropagate (_outputGrad : List ℚ) (model : Model) (rng : List ℚ) : Model :=
  let (rev', _) := backpropLayersRev model.layers.reverse rng
  { model with layers := rev'.reverse }

/-- `WebGPURuntime.computeGradients`: build the (unused) loss gradient
`predictions - targets`, then run `backpropagate`. -/
def computeGradients (model : Model) (predictions targets rng : List ℚ) : Model :=
  let lossGrad := (List.range predictions.length).map fun i =>
    predictions.getD i 0 - targets.getD i 0
  backpropagate lossGrad model rng

/-- `WebGPURuntime.computeLoss` with `Math.log` abstract: categorical
cross-entropy with the `1e-15` floor inside the logarithm, mean squared
error, `0` for anything else. -/
def computeLoss (log : ℚ → ℚ) (predictions targets : List ℚ) (lossFunction : String) : ℚ :=
  if lossFunction = "categoricalCrossentropy" then
    (List.range predictions.length).foldl
      (fun loss i =>
        if 0 < targets.getD i 0 then
          loss - targets.getD i 0 * log (max (predictions.getD i 0) (1 / 10 ^ 15))
        else loss) 0
  else if lossFunction = "meanSquaredError" then
    ((List.range predictions.length).foldl
      (fun mse i => mse + (predictions.getD i 0 - targets.getD i 0) ^ 2) 0)
      / (predictions.length : ℚ)
  else 0

/-- One `TrainingMetrics` record. -/
structure TrainingMetrics where
  epoch : Nat
  loss : ℚ
  accuracy : ℚ
  valLoss : ℚ
  valAccuracy : ℚ
  learningRate : ℚ
  gradientNorm : ℚ
  deriving DecidableEq, Repr

/-- The epoch loop of `trainModel`.  `stopped e` is the negation of the
`isTraining` flag as observed by the `if (!this.isTraining) break` check
at the start of loop iteration `e`; `data e` abstracts the numeric batch
results of iteration `e` (losses, accuracies, synthetic validation
numbers), whose `epoch` field the loop overwrites with `e + 1` exactly as
the source does.  The returned list is both the sequence of `onEpochEnd`
invocations (in order) and the final `trainingHistory` passed to
`onTrainingComplete`. -/
def trainEpochs (stopped : Nat → Bool) (data : Nat → TrainingMetrics) :
    Nat → Nat → List TrainingMetrics
  | 0, _ => []
  | n + 1, e =>
    if stopped e then []
    else { data e with epoch := e + 1 } :: trainEpochs stopped data n (e + 1)

/-- `WebGPURuntime.trainModel`, reduced to its observable callback
contract: the history produced by a run of `config.epochs` epochs under
the stop schedule `stopped`. -/
def trainModelHistory (epochs : Nat) (stopped : Nat → Bool)
    (data : Nat → TrainingMetrics) : List TrainingMetrics :=
  trainEpochs stopped data epochs 0

/-! ## Topological sort (`WebGPURuntime.topologicalSort`)

The source is a three-color depth-first traversal with mutable `sorted`,
`visited` and `temp` sets and a recursive closure `visit`.  The embedding
threads the three sets as a state record and makes the recursion
structural on an explicit fuel; `topologicalSort` supplies fuel
`nodes.length + edges.length + 1`, which the lemmas below show is never
exhausted (the recursion depth is bounded by the number of distinct ids
that can enter `temp`). -/

/-- The traversal state: the output list, the done set and the
in-progress set. -/
structure TSState where
  sorted : List GNode
  visited : List String
  temp : List String

/-- The sources of the incoming edges of a node, in edge-list order
(`edges.filter(e => e.target === nodeId)` + iteration over `e.source`). -/
def incomingSources (edges : List Edge) (nodeId : String) : List String :=
  (edges.filter (fun e => e.target == nodeId)).map (·.source)

/-- The recursive `visit` closure of `topologicalSort`: skip when the node
is in progress (cycle) or done; otherwise mark in progress, visit all
direct predecessors, then mark done and append the node (if it belongs to
the node list) to the output. -/
def visit (nodes : List GNode) (edges : List Edge) : Nat → String → TSState → TSState
  | 0, _, s => s
  | fuel + 1, nodeId, s =>
    if nodeId ∈ s.temp then s
    else if nodeId ∈ s.visited then s
    else
      let s1 : TSState := { s with temp := nodeId :: s.temp }
      let s2 := (incomingSources edges nodeId).foldl
        (fun acc src => visit nodes edges fuel src acc) s1
      let s3 : TSState :=
        { sorted := s2.sorted, visited := nodeId :: s2.visited, temp := s2.temp.erase nodeId }
      match nodes.find? (fun n => n.id == nodeId) with
      | some n => { s3 with sorted := s3.sorted ++ [n] }
      | none => s3

/-- `WebGPURuntime.topologicalSort`: visit the start nodes (no incoming
edge, or a `DataLoader`), then sweep the remaining unvisited nodes. -/
def topologicalSort (nodes : List GNode) (edges : List Edge) : List GNode :=
  let fuel := nodes.length + edges.length + 1
  let startNodes := nodes.filter
    (fun n => !(edges.any (fun e => e.target == n.id)) || n.data.blockType == "DataLoader")
  let s1 := startNodes.foldl (fun acc n => visit nodes edges fuel n.id acc) ⟨[], [], []⟩
  let s2 := nodes.foldl
    (fun acc n => if n.id ∈ acc.visited then acc else visit nodes edges fuel n.id acc) s1
  s2.sorted

/-- One directed step along an edge of the graph. -/
def edgeStep (edges : List Edge) (a b : String) : Prop :=
  ∃ e ∈ edges, e.source = a ∧ e.target = b

/-- `a` occurs strictly before `b` (as node ids) in the list `l`. -/
def BeforeIds (a b : String) (l : List GNode) : Prop :=
  ∃ l1 l2 l3 x y, l = l1 ++ x :: l2 ++ y :: l3 ∧ x.id = a ∧ y.id = b

theorem visit_zero (nodes : List GNode) (edges : List Edge) (nodeId : String) (s : TSState) :
    visit nodes edges 0 nodeId s = s := rfl

theorem visit_succ (nodes : List GNode) (edges : List Edge) (fuel : Nat) (nodeId : String)
    (s : TSState) :
    visit nodes edges (fuel + 1) nodeId s =
      if nodeId ∈ s.temp then s
      else if nodeId ∈ s.visited then s
      else
        let s1 : TSState := { s with temp := nodeId :: s.temp }
        let s2 := (incomingSources edges nodeId).foldl
          (fun acc src => visit nodes edges fuel src acc) s1
        let s3 : TSState :=
          { sorted := s2.sorted, visited := nodeId :: s2.visited, temp := s2.temp.erase nodeId }
        match nodes.find? (fun n => n.id == nodeId) with
        | some n => { s3 with sorted := s3.sorted ++ [n] }
        | none => s3 := rfl

theorem visit_temp (nodes : List GNode) (edges : List Edge) :
    ∀ (fuel : Nat) (nodeId : String) (s : TSState),
      (visit nodes edges fuel nodeId s).temp = s.temp := by
  intro fuel
  induction fuel with
  | zero => intro nodeId s; rfl
  | succ f ih =>
    intro nodeId s
    rw [visit_succ]
    by_cases h1 : nodeId ∈ s.temp
    · simp [h1]
    by_cases h2 : nodeId ∈ s.visited
    · simp [h1, h2]
    simp only [h1, h2, if_false, if_neg, not_false_iff]
    have hfold : ∀ (l : List String) (t : TSState),
        (l.foldl (fun acc src => visit nodes edges f src acc) t).temp = t.temp := by
      intro l
      induction l with
      | nil => intro t; rfl
      | cons a as iha => intro t; simp only [List.foldl_cons]; rw [iha, ih]
    cases hfind : nodes.find? (fun n => n.id == nodeId) with
    | some n =>
      simp only [hfind]
      simp only [hfold]
      exact List.erase_cons_head nodeId s.temp
    | none =>
      simp only [hfind]
      simp only [hfold]
      exact List.erase_cons_head nodeId s.temp

theorem visit_fold_temp (nodes : List GNode) (edges : List Edge) (fuel : Nat) :
    ∀ (l : List String) (t : TSState),
      (l.foldl (fun acc src => visit nodes edges fuel src acc) t).temp = t.temp := by
  intro l
  induction l with
  | nil => intro t; rfl
  | cons a as iha =>
    intro t
    simp only [List.foldl_cons]
    rw [iha, visit_temp]

theorem visit_mono (nodes : List GNode) (edges : List Edge) :
    ∀ (fuel : Nat) (nodeId : String) (s : TSState),
      s.visited ⊆ (visit nodes edges fuel nodeId s).visited ∧
        s.sorted <+: (visit nodes edges fuel nodeId s).sorted := by
  intro fuel
  induction fuel with
  | zero => intro nodeId s; exact ⟨fun _ h => h, List.prefix_refl _⟩
  | succ f ih =>
    intro nodeId s
    rw [visit_succ]
    by_cases h1 : nodeId ∈ s.temp
    · simp only [h1, if_true]; exact ⟨fun _ h => h, List.prefix_refl _⟩
    by_cases h2 : nodeId ∈ s.visited
    · simp only [h1, h2, if_true, if_false]; exact ⟨fun _ h => h, List.prefix_refl _⟩
    simp only [h1, h2, if_false]
    have hfold : ∀ (l : List String) (t : TSState),
        t.visited ⊆ (l.foldl (fun acc src => visit nodes edges f src acc) t).visited ∧
          t.sorted <+: (l.foldl (fun acc src => visit nodes edges f src acc) t).sorted := by
      intro l
      induction l with
      | nil => intro t; exact ⟨fun _ h => h, List.prefix_refl _⟩
      | cons a as iha =>
        intro t
        simp only [List.foldl_cons]
        obtain ⟨hv1, hs1⟩ := ih a t
        obtain ⟨hv2, hs2⟩ := iha (visit nodes edges f a t)
        exact ⟨fun x hx => hv2 (hv1 hx), hs1.trans hs2⟩
    obtain ⟨hv, hs⟩ := hfold (incomingSources edges nodeId)
      { s with temp := nodeId :: s.temp }
    cases hfind : nodes.find? (fun n => n.id == nodeId) with
    | some n =>
      simp only [hfind]
      refine ⟨fun x hx => ?_, ?_⟩
      · exact List.mem_cons_of_mem _ (hv hx)
      · exact hs.trans (List.prefix_append _ _)
    | none =>
      simp only [hfind]
      exact ⟨fun x hx => List.mem_cons_of_mem _ (hv hx), hs⟩

theorem visit_fold_mono (nodes : List GNode) (edges : List Edge) (fuel : Nat) :
    ∀ (l : List String) (t : TSState),
      t.visited ⊆ (l.foldl (fun acc src => visit nodes edges fuel src acc) t).visited ∧
        t.sorted <+: (l.foldl (fun acc src => visit nodes edges fuel src acc) t).sorted := by
  intro l
  induction l with
  | nil => intro t; exact ⟨fun _ h => h, List.prefix_refl _⟩
  | cons a as iha =>
    intro t
    simp only [List.foldl_cons]
    obtain ⟨hv1, hs1⟩ := visit_mono nodes edges fuel a t
    obtain ⟨hv2, hs2⟩ := iha (visit nodes edges fuel a t)
    exact ⟨fun x hx => hv2 (hv1 hx), hs1.trans hs2⟩

theorem visit_adds (nodes : List GNode) (edges : List Edge) (fuel : Nat) (nodeId : String)
    (s : TSState) (hfuel : 1 ≤ fuel) (htemp : nodeId ∉ s.temp) :
    nodeId ∈ (visit nodes edges fuel nodeId s).visited := by
  obtain ⟨f, rfl⟩ : ∃ f, fuel = f + 1 := ⟨fuel - 1, by omega⟩
  rw [visit_succ]
  by_cases h2 : nodeId ∈ s.visited
  · simp only [htemp, h2, if_true, if_false]
  simp only [htemp, h2, if_false]
  cases hfind : nodes.find? (fun n => n.id == nodeId) with
  | some n => simp only [hfind]; exact List.mem_cons_self _ _
  | none => simp only [hfind]; exact List.mem_cons_self _ _

theorem visit_new_visited (nodes : List GNode) (edges : List Edge) :
    ∀ (fuel : Nat) (nodeId : String) (s : TSState) (v : String),
      v ∈ (visit nodes edges fuel nodeId s).visited → v ∈ s.visited ∨ v ∉ s.temp := by
  intro fuel
  induction fuel with
  | zero => intro nodeId s v hv; exact Or.inl hv
  | succ f ih =>
    intro nodeId s v hv
    rw [visit_succ] at hv
    by_cases h1 : nodeId ∈ s.temp
    · simp only [h1, if_true] at hv; exact Or.inl hv
    by_cases h2 : nodeId ∈ s.visited
    · simp only [h1, h2, if_true, if_false] at hv; exact Or.inl hv
    simp only [h1, h2, if_false] at hv
    have hfold : ∀ (l : List String) (t : TSState) (w : String),
        t.temp = nodeId :: s.temp →
        w ∈ (l.foldl (fun acc src => visit nodes edges f src acc) t).visited →
        w ∈ t.visited ∨ w ∉ t.temp := by
      intro l
      induction l with
      | nil => intro t w _ hw; exact Or.inl hw
      | cons a as iha =>
        intro t w htmp hw
        simp only [List.foldl_cons] at hw
        rcases iha (visit nodes edges f a t) w (by rw [visit_temp]; exact htmp) hw with h | h
        · rcases ih a t w h with h' | h'
          · exact Or.inl h'
          · exact Or.inr h'
        · rw [visit_temp] at h; exact Or.inr h
    have step : v ∈ ((incomingSources edges nodeId).foldl
        (fun acc src => visit nodes edges f src acc)
        { s with temp := nodeId :: s.temp }).visited → v ∈ s.visited ∨ v ∉ s.temp := by
      intro hmem
      rcases hfold (incomingSources edges nodeId) { s with temp := nodeId :: s.temp } v rfl
        hmem with h | h
      · exact Or.inl h
      · exact Or.inr (fun hc => h (List.mem_cons_of_mem _ hc))
    cases hfind : nodes.find? (fun n => n.id == nodeId) with
    | some n =>
      simp only [hfind, List.mem_cons] at hv
      rcases hv with rfl | hv
      · exact Or.inr h1
      · exact step hv
    | none =>
      simp only [hfind, List.mem_cons] at hv
      rcases hv with rfl | hv
      · exact Or.inr h1
      · exact step hv

theorem visit_fold_new_visited (nodes : List GNode) (edges : List Edge) (fuel : Nat) :
    ∀ (l : List String) (t : TSState) (w : String),
      w ∈ (l.foldl (fun acc src => visit nodes edges fuel src acc) t).visited →
      w ∈ t.visited ∨ w ∉ t.temp := by
  intro l
  induction l with
  | nil => intro t w hw; exact Or.inl hw
  | cons a as iha =>
    intro t w hw
    simp only [List.foldl_cons] at hw
    rcases iha (visit nodes edges fuel a t) w hw with h | h
    · exact visit_new_visited nodes edges fuel a t w h
    · rw [visit_temp] at h; exact Or.inr h

/-- The uniqueness part of the invariant maintained by `visit`: output
entries come from the node list, their ids are distinct, and an id is in
`visited` exactly when its node has been appended to the output. -/
def InvA (nodes : List GNode) (s : TSState) : Prop :=
  (∀ n ∈ s.sorted, n ∈ nodes) ∧
  (s.sorted.map GNode.id).Nodup ∧
  (∀ v ∈ s.visited, ∀ n ∈ nodes, n.id = v → n ∈ s.sorted) ∧
  (∀ n ∈ s.sorted, n.id ∈ s.visited)

theorem gnode_id_unique (nodes : List GNode) (hnd : (nodes.map GNode.id).Nodup)
    {m m' : GNode} (hm : m ∈ nodes) (hm' : m' ∈ nodes) (hid : m.id = m'.id) : m = m' :=
  List.inj_on_of_nodup_map hnd hm hm' hid

theorem visit_invA (nodes : List GNode) (edges : List Edge)
    (hnd : (nodes.map GNode.id).Nodup) :
    ∀ (fuel : Nat) (nodeId : String) (s : TSState),
      InvA nodes s → InvA nodes (visit nodes edges fuel nodeId s) := by
  intro fuel
  induction fuel with
  | zero => intro nodeId s h; exact h
  | succ f ih =>
    intro nodeId s hs
    rw [visit_succ]
    by_cases h1 : nodeId ∈ s.temp
    · simp only [h1, if_true]; exact hs
    by_cases h2 : nodeId ∈ s.visited
    · simp only [h1, h2, if_true, if_false]; exact hs
    simp only [h1, h2, if_false]
    have hfold : ∀ (l : List String) (t : TSState),
        InvA nodes t → InvA nodes (l.foldl (fun acc src => visit nodes edges f src acc) t) := by
      intro l
      induction l with
      | nil => intro t h; exact h
      | cons a as iha =>
        intro t h
        simp only [List.foldl_cons]
        exact iha _ (ih a t h)
    have hs1 : InvA nodes { s with temp := nodeId :: s.temp } := hs
    have hs2 := hfold (incomingSources edges nodeId) { s with temp := nodeId :: s.temp } hs1
    set s2 := (incomingSources edges nodeId).foldl
      (fun acc src => visit nodes edges f src acc) { s with temp := nodeId :: s.temp } with hs2def
    obtain ⟨hA1, hA2, hA3, hA4⟩ := hs2
    have hnotv2 : nodeId ∉ s2.visited := by
      intro hc
      rcases visit_fold_new_visited nodes edges f (incomingSources edges nodeId)
        { s with temp := nodeId :: s.temp } nodeId hc with h | h
      · exact h2 h
      · exact h (List.mem_cons_self _ _)
    cases hfind : nodes.find? (fun n => n.id == nodeId) with
    | some n =>
      simp only [hfind]
      have hn_mem : n ∈ nodes := List.mem_of_find?_eq_some hfind
      have hn_id : n.id = nodeId := by
        have := List.find?_some hfind
        exact eq_of_beq this
      refine ⟨?_, ?_, ?_, ?_⟩
      · intro m hm
        rcases List.mem_append.mp hm with hm | hm
        · exact hA1 m hm
        · rw [List.mem_singleton.mp hm]; exact hn_mem
      · rw [List.map_append]
        apply List.Nodup.append hA2 (by simp)
        intro x hx hx'
        simp only [List.map_cons, List.map_nil, List.mem_singleton] at hx'
        subst hx'
        rcases List.mem_map.mp hx with ⟨m, hm, hmid⟩
        exact hnotv2 (hn_id ▸ (hmid ▸ hA4 m hm))
      · intro v hv m hm hmid
        rcases List.mem_cons.mp hv with rfl | hv
        · have : m = n := gnode_id_unique nodes hnd hm hn_mem (by rw [hmid, hn_id])
          subst this
          exact List.mem_append.mpr (Or.inr (List.mem_singleton.mpr rfl))
        · exact List.mem_append.mpr (Or.inl (hA3 v hv m hm hmid))
      · intro m hm
        rcases List.mem_append.mp hm with hm | hm
        · exact List.mem_cons_of_mem _ (hA4 m hm)
        · rw [List.mem_singleton.mp hm, hn_id]; exact List.mem_cons_self _ _
    | none =>
      simp only [hfind]
      have hnone : ∀ m ∈ nodes, m.id ≠ nodeId := by
        intro m hm
        have := List.find?_eq_none.mp hfind m hm
        intro hc
        exact this (beq_iff_eq.mpr hc)
      refine ⟨hA1, hA2, ?_, ?_⟩
      · intro v hv m hm hmid
        rcases List.mem_cons.mp hv with rfl | hv
        · exact absurd hmid (hnone m hm)
        · exact hA3 v hv m hm hmid
      · intro m hm
        exact List.mem_cons_of_mem _ (hA4 m hm)

theorem visit_fold_invA (nodes : List GNode) (edges : List Edge)
    (hnd : (nodes.map GNode.id).Nodup) (fuel : Nat) :
    ∀ (l : List String) (t : TSState),
      InvA nodes t → InvA nodes (l.foldl (fun acc src => visit nodes edges fuel src acc) t) := by
  intro l
  induction l with
  | nil => intro t h; exact h
  | cons a as iha =>
    intro t h
    simp only [List.foldl_cons]
    exact iha _ (visit_invA nodes edges hnd fuel a t h)

/-- All ids that can ever enter the `temp` set: node ids (the roots of the
traversal) and edge sources (the recursive calls). -/
def allIds (nodes : List GNode) (edges : List Edge) : List String :=
  nodes.map GNode.id ++ edges.map Edge.source

/-- The number of candidate ids not yet in `temp`: an upper bound on the
remaining recursion depth of `visit`. -/
def kRem (nodes : List GNode) (edges : List Edge) (s : TSState) : Nat :=
  ((allIds nodes edges).filter (fun v => decide (v ∉ s.temp))).length

theorem kRem_temp_eq (nodes : List GNode) (edges : List Edge) (s t : TSState)
    (h : s.temp = t.temp) : kRem nodes edges s = kRem nodes edges t := by
  unfold kRem
  rw [h]

theorem filter_notmem_cons_lt (tempL : List String) (a : String) :
    ∀ (l : List String), a ∈ l → a ∉ tempL →
      (l.filter (fun v => decide (v ∉ a :: tempL))).length <
        (l.filter (fun v => decide (v ∉ tempL))).length := by
  intro l
  induction l with
  | nil => intro h; cases h
  | cons b bs ih =>
    intro hmem hnt
    by_cases hba : b = a
    · subst hba
      have hL : List.filter (fun v => decide (v ∉ b :: tempL)) (b :: bs) =
          bs.filter (fun v => decide (v ∉ b :: tempL)) := by
        simp [List.filter_cons]
      have hR : List.filter (fun v => decide (v ∉ tempL)) (b :: bs) =
          b :: bs.filter (fun v => decide (v ∉ tempL)) := by
        simp [List.filter_cons, hnt]
      rw [hL, hR]
      have mono : (bs.filter (fun v => decide (v ∉ b :: tempL))).length ≤
          (bs.filter (fun v => decide (v ∉ tempL))).length := by
        apply List.Sublist.length_le
        apply List.monotone_filter_right
        intro x hx
        simp only [decide_eq_true_eq, List.mem_cons, not_or] at hx ⊢
        exact hx.2
      simp only [List.length_cons]
      omega
    · have hmem' : a ∈ bs := by
        rcases List.mem_cons.mp hmem with h | h
        · exact absurd h.symm hba
        · exact h
      simp only [List.filter_cons]
      have heq : (decide (b ∉ a :: tempL)) = (decide (b ∉ tempL)) := by
        by_cases hb : b ∈ tempL
        · simp [hb]
        · simp [hb, hba]
      rw [heq]
      cases hdec : (decide (b ∉ tempL)) with
      | false => exact ih hmem' hnt
      | true =>
        simp only [List.length_cons]
        exact Nat.succ_lt_succ (ih hmem' hnt)

theorem kRem_push_lt (nodes : List GNode) (edges : List Edge) (s : TSState) (a : String)
    (ha : a ∈ allIds nodes edges) (hnt : a ∉ s.temp) :
    kRem nodes edges { s with temp := a :: s.temp } < kRem nodes edges s :=
  filter_notmem_cons_lt s.temp a (allIds nodes edges) ha hnt

theorem chain_head_transGen {R : String → String → Prop} :
    ∀ (xs : List String) (x y : String),
      List.Chain' R (x :: xs) → y ∈ xs → Relation.TransGen R x y := by
  intro xs
  induction xs with
  | nil => intro x y _ hy; cases hy
  | cons z rest ih =>
    intro x y hch hy
    rw [List.chain'_cons] at hch
    rcases List.mem_cons.mp hy with rfl | hy
    · exact Relation.TransGen.single hch.1
    · exact Relation.TransGen.head hch.1 (ih z y hch.2 hy)

/-- The ordering invariant: every already-finished target node is placed
after all its direct predecessors that belong to the node list. -/
def OrdInv (nodes : List GNode) (edges : List Edge) (s : TSState) : Prop :=
  ∀ v ∈ s.visited, ∀ e ∈ edges, e.target = v →
    e.source ∈ nodes.map GNode.id → v ∈ nodes.map GNode.id →
    BeforeIds e.source v s.sorted

theorem beforeIds_mono {a b : String} {l l' : List GNode} (h : BeforeIds a b l)
    (hp : l <+: l') : BeforeIds a b l' := by
  obtain ⟨l1, l2, l3, x, y, hl, hx, hy⟩ := h
  obtain ⟨t, rfl⟩ := hp
  exact ⟨l1, l2, l3 ++ t, x, y, by rw [hl]; simp, hx, hy⟩

theorem visit_fold_ordInv (nodes : List GNode) (edges : List Edge)
    (hnd : (nodes.map GNode.id).Nodup)
    (hacyc : ∀ v, ¬ Relation.TransGen (edgeStep edges) v v) (f : Nat)
    (IH : ∀ (nodeId : String) (s : TSState),
      nodeId ∈ allIds nodes edges →
      kRem nodes edges s + 1 ≤ f →
      List.Chain' (edgeStep edges) (nodeId :: s.temp) →
      InvA nodes s → OrdInv nodes edges s →
      OrdInv nodes edges (visit nodes edges f nodeId s)) :
    ∀ (srcs : List String) (t : String) (s : TSState),
      (∀ a ∈ srcs, edgeStep edges a t ∧ a ∈ allIds nodes edges) →
      s.temp.head? = some t →
      List.Chain' (edgeStep edges) s.temp →
      kRem nodes edges s + 1 ≤ f →
      InvA nodes s → OrdInv nodes edges s →
      OrdInv nodes edges (srcs.foldl (fun acc src => visit nodes edges f src acc) s) ∧
        (∀ a ∈ srcs, a ∈ (srcs.foldl (fun acc src => visit nodes edges f src acc) s).visited) := by
  intro srcs
  induction srcs with
  | nil =>
    intro t s _ _ _ _ _ hOrd
    exact ⟨hOrd, by intro a ha; cases ha⟩
  | cons a as iha =>
    intro t s hsrcs hhead hchain hk hInv hOrd
    simp only [List.foldl_cons]
    obtain ⟨hstep, haid⟩ := hsrcs a (List.mem_cons_self a as)
    have hchain' : List.Chain' (edgeStep edges) (a :: s.temp) := by
      rw [List.chain'_cons']
      refine ⟨?_, hchain⟩
      intro y hy
      rw [hhead] at hy
      rw [Option.mem_some_iff.mp hy] at hstep
      exact hstep
    have hanotin : a ∉ s.temp := by
      intro hc
      exact hacyc a (chain_head_transGen s.temp a a hchain' hc)
    have hf1 : 1 ≤ f := by omega
    have hvis : a ∈ (visit nodes edges f a s).visited :=
      visit_adds nodes edges f a s hf1 hanotin
    have htempeq : (visit nodes edges f a s).temp = s.temp := visit_temp nodes edges f a s
    have hInv' := visit_invA nodes edges hnd f a s hInv
    have hOrd' := IH a s haid hk hchain' hInv hOrd
    have hrest := iha t (visit nodes edges f a s)
      (fun b hb => hsrcs b (List.mem_cons_of_mem a hb))
      (by rw [htempeq]; exact hhead)
      (by rw [htempeq]; exact hchain)
      (by rw [kRem_temp_eq nodes edges _ s htempeq]; exact hk)
      hInv' hOrd'
    refine ⟨hrest.1, ?_⟩
    intro b hb
    rcases List.mem_cons.mp hb with rfl | hb
    · exact (visit_fold_mono nodes edges f as (visit nodes edges f b s)).1 hvis
    · exact hrest.2 b hb

theorem visit_ordInv (nodes : List GNode) (edges : List Edge)
    (hnd : (nodes.map GNode.id).Nodup)
    (hacyc : ∀ v, ¬ Relation.TransGen (edgeStep edges) v v) :
    ∀ (fuel : Nat) (nodeId : String) (s : TSState),
      nodeId ∈ allIds nodes edges →
      kRem nodes edges s + 1 ≤ fuel →
      List.Chain' (edgeStep edges) (nodeId :: s.temp) →
      InvA nodes s → OrdInv nodes edges s →
      OrdInv nodes edges (visit nodes edges fuel nodeId s) := by
  intro fuel
  induction fuel with
  | zero =>
    intro nodeId s _ hk
    omega
  | succ f ih =>
    intro nodeId s hid hk hchain hInv hOrd
    rw [visit_succ]
    by_cases h1 : nodeId ∈ s.temp
    · simp only [h1, if_true]; exact hOrd
    by_cases h2 : nodeId ∈ s.visited
    · simp only [h1, h2, if_true, if_false]; exact hOrd
    simp only [h1, h2, if_false]
    have hk1 : kRem nodes edges { s with temp := nodeId :: s.temp } + 1 ≤ f := by
      have := kRem_push_lt nodes edges s nodeId hid h1
      omega
    have hsrcs : ∀ a ∈ incomingSources edges nodeId,
        edgeStep edges a nodeId ∧ a ∈ allIds nodes edges := by
      intro a ha
      unfold incomingSources at ha
      rcases List.mem_map.mp ha with ⟨e, he, rfl⟩
      have heE := List.mem_filter.mp he
      have htgt : e.target = nodeId := by simpa using heE.2
      exact ⟨⟨e, heE.1, rfl, htgt⟩,
        List.mem_append.mpr (Or.inr (List.mem_map_of_mem Edge.source heE.1))⟩
    have hfold := visit_fold_ordInv nodes edges hnd hacyc f ih
      (incomingSources edges nodeId) nodeId { s with temp := nodeId :: s.temp }
      hsrcs rfl hchain hk1 hInv hOrd
    have hInv2 := visit_fold_invA nodes edges hnd f (incomingSources edges nodeId)
      { s with temp := nodeId :: s.temp } hInv
    obtain ⟨hOrd2, hvis2⟩ := hfold
    cases hfind : nodes.find? (fun n => n.id == nodeId) with
    | some n =>
      simp only [hfind]
      have hnid : n.id = nodeId := by
        have := List.find?_some hfind
        exact eq_of_beq this
      intro v hv e he htgt hsrcmem hvmem
      rcases List.mem_cons.mp hv with rfl | hv
      · have hsrc_in : e.source ∈ incomingSources edges v := by
          unfold incomingSources
          exact List.mem_map_of_mem Edge.source
            (List.mem_filter.mpr ⟨he, by simp [htgt]⟩)
        have hsv := hvis2 e.source hsrc_in
        rcases List.mem_map.mp hsrcmem with ⟨m, hm, hmid⟩
        have hmsorted := hInv2.2.2.1 e.source hsv m hm hmid
        obtain ⟨u, w, hsplit⟩ := List.append_of_mem hmsorted
        refine ⟨u, w, [], m, n, ?_, hmid, hnid⟩
        rw [hsplit]
      · exact beforeIds_mono (hOrd2 v hv e he htgt hsrcmem hvmem)
          (List.prefix_append _ _)
    | none =>
      simp only [hfind]
      intro v hv e he htgt hsrcmem hvmem
      rcases List.mem_cons.mp hv with rfl | hv
      · rcases List.mem_map.mp hvmem with ⟨m, hm, hmid⟩
        have := List.find?_eq_none.mp hfind m hm
        exact absurd (beq_iff_eq.mpr hmid) this
      · exact hOrd2 v hv e he htgt hsrcmem hvmem

theorem kRem_of_temp_nil (nodes : List GNode) (edges : List Edge) (s : TSState)
    (h : s.temp = []) : kRem nodes edges s = (allIds nodes edges).length := by
  unfold kRem
  rw [h]
  have hall : ∀ v : String, (decide (v ∉ ([] : List String))) = true := by
    intro v; simp
  rw [List.filter_eq_self.mpr (fun a _ => hall a)]

theorem allIds_length (nodes : List GNode) (edges : List Edge) :
    (allIds nodes edges).length = nodes.length + edges.length := by
  simp [allIds]

theorem fold1_temp (nodes : List GNode) (edges : List Edge) (fuel : Nat) :
    ∀ (l : List GNode) (s : TSState),
      (l.foldl (fun acc n => visit nodes edges fuel n.id acc) s).temp = s.temp := by
  intro l
  induction l with
  | nil => intro s; rfl
  | cons m ms ih =>
    intro s
    simp only [List.foldl_cons]
    rw [ih, visit_temp]

theorem fold1_invA (nodes : List GNode) (edges : List Edge)
    (hnd : (nodes.map GNode.id).Nodup) (fuel : Nat) :
    ∀ (l : List GNode) (s : TSState),
      InvA nodes s → InvA nodes (l.foldl (fun acc n => visit nodes edges fuel n.id acc) s) := by
  intro l
  induction l with
  | nil => intro s h; exact h
  | cons m ms ih =>
    intro s h
    simp only [List.foldl_cons]
    exact ih _ (visit_invA nodes edges hnd fuel m.id s h)

theorem fold1_ordInv (nodes : List GNode) (edges : List Edge)
    (hnd : (nodes.map GNode.id).Nodup)
    (hacyc : ∀ v, ¬ Relation.TransGen (edgeStep edges) v v) (fuel : Nat)
    (hfuel : (allIds nodes edges).length + 1 ≤ fuel) :
    ∀ (l : List GNode) (s : TSState), (∀ n ∈ l, n ∈ nodes) → s.temp = [] →
      InvA nodes s → OrdInv nodes edges s →
      OrdInv nodes edges (l.foldl (fun acc n => visit nodes edges fuel n.id acc) s) := by
  intro l
  induction l with
  | nil => intro s _ _ _ h; exact h
  | cons m ms ih =>
    intro s hmem htmp hInv hOrd
    simp only [List.foldl_cons]
    have hid : m.id ∈ allIds nodes edges :=
      List.mem_append.mpr (Or.inl (List.mem_map_of_mem GNode.id (hmem m (List.mem_cons_self m ms))))
    have hk : kRem nodes edges s + 1 ≤ fuel := by
      rw [kRem_of_temp_nil nodes edges s htmp]; exact hfuel
    have hchain : List.Chain' (edgeStep edges) (m.id :: s.temp) := by
      rw [htmp]; exact List.chain'_singleton _
    have hOrd' := visit_ordInv nodes edges hnd hacyc fuel m.id s hid hk hchain hInv hOrd
    have hInv' := visit_invA nodes edges hnd fuel m.id s hInv
    have htmp' : (visit nodes edges fuel m.id s).temp = [] := by rw [visit_temp]; exact htmp
    exact ih _ (fun n hn => hmem n (List.mem_cons_of_mem m hn)) htmp' hInv' hOrd'

theorem fold2_temp (nodes : List GNode) (edges : List Edge) (fuel : Nat) :
    ∀ (l : List GNode) (s : TSState),
      (l.foldl (fun acc n => if n.id ∈ acc.visited then acc
        else visit nodes edges fuel n.id acc) s).temp = s.temp := by
  intro l
  induction l with
  | nil => intro s; rfl
  | cons m ms ih =>
    intro s
    simp only [List.foldl_cons]
    rw [ih]
    by_cases h : m.id ∈ s.visited
    · simp [h]
    · simp only [h, if_false]; exact visit_temp nodes edges fuel m.id s

theorem fold2_invA (nodes : List GNode) (edges : List Edge)
    (hnd : (nodes.map GNode.id).Nodup) (fuel : Nat) :
    ∀ (l : List GNode) (s : TSState),
      InvA nodes s → InvA nodes (l.foldl (fun acc n => if n.id ∈ acc.visited then acc
        else visit nodes edges fuel n.id acc) s) := by
  intro l
  induction l with
  | nil => intro s h; exact h
  | cons m ms ih =>
    intro s h
    simp only [List.foldl_cons]
    by_cases hc : m.id ∈ s.visited
    · simp only [hc, if_true]; exact ih _ h
    · simp only [hc, if_false]; exact ih _ (visit_invA nodes edges hnd fuel m.id s h)

theorem fold2_mono (nodes : List GNode) (edges : List Edge) (fuel : Nat) :
    ∀ (l : List GNode) (s : TSState),
      s.visited ⊆ (l.foldl (fun acc n => if n.id ∈ acc.visited then acc
        else visit nodes edges fuel n.id acc) s).visited := by
  intro l
  induction l with
  | nil => intro s x h; exact h
  | cons m ms ih =>
    intro s x h
    simp only [List.foldl_cons]
    by_cases hc : m.id ∈ s.visited
    · simp only [hc, if_true]; exact ih _ h
    · simp only [hc, if_false]
      exact ih _ ((visit_mono nodes edges fuel m.id s).1 h)

theorem fold2_allVisited (nodes : List GNode) (edges : List Edge) (fuel : Nat)
    (hfuel : 1 ≤ fuel) :
    ∀ (l : List GNode) (s : TSState), s.temp = [] →
      ∀ n ∈ l, n.id ∈ (l.foldl (fun acc n => if n.id ∈ acc.visited then acc
        else visit nodes edges fuel n.id acc) s).visited := by
  intro l
  induction l with
  | nil => intro s _ n hn; cases hn
  | cons m ms ih =>
    intro s htmp n hn
    simp only [List.foldl_cons]
    rcases List.mem_cons.mp hn with rfl | hn
    · by_cases hc : n.id ∈ s.visited
      · simp only [hc, if_true]
        exact fold2_mono nodes edges fuel ms s hc
      · simp only [hc, if_false]
        have : n.id ∈ (visit nodes edges fuel n.id s).visited := by
          apply visit_adds nodes edges fuel n.id s hfuel
          rw [htmp]; exact List.not_mem_nil _
        exact fold2_mono nodes edges fuel ms _ this
    · by_cases hc : m.id ∈ s.visited
      · simp only [hc, if_true]; exact ih s htmp n hn
      · simp only [hc, if_false]
        apply ih _ _ n hn
        rw [visit_temp]; exact htmp

theorem fold2_ordInv (nodes : List GNode) (edges : List Edge)
    (hnd : (nodes.map GNode.id).Nodup)
    (hacyc : ∀ v, ¬ Relation.TransGen (edgeStep edges) v v) (fuel : Nat)
    (hfuel : (allIds nodes edges).length + 1 ≤ fuel) :
    ∀ (l : List GNode) (s : TSState), (∀ n ∈ l, n ∈ nodes) → s.temp = [] →
      InvA nodes s → OrdInv nodes edges s →
      OrdInv nodes edges (l.foldl (fun acc n => if n.id ∈ acc.visited then acc
        else visit nodes edges fuel n.id acc) s) := by
  intro l
  induction l with
  | nil => intro s _ _ _ h; exact h
  | cons m ms ih =>
    intro s hmem htmp hInv hOrd
    simp only [List.foldl_cons]
    by_cases hc : m.id ∈ s.visited
    · simp only [hc, if_true]
      exact ih s (fun n hn => hmem n (List.mem_cons_of_mem m hn)) htmp hInv hOrd
    · simp only [hc, if_false]
      have hid : m.id ∈ allIds nodes edges :=
        List.mem_append.mpr
          (Or.inl (List.mem_map_of_mem GNode.id (hmem m (List.mem_cons_self m ms))))
      have hk : kRem nodes edges s + 1 ≤ fuel := by
        rw [kRem_of_temp_nil nodes edges s htmp]; exact hfuel
      have hchain : List.Chain' (edgeStep edges) (m.id :: s.temp) := by
        rw [htmp]; exact List.chain'_singleton _
      have hOrd' := visit_ordInv nodes edges hnd hacyc fuel m.id s hid hk hchain hInv hOrd
      have hInv' := visit_invA nodes edges hnd fuel m.id s hInv
      have htmp' : (visit nodes edges fuel m.id s).temp = [] := by
        rw [visit_temp]; exact htmp
      exact ih _ (fun n hn => hmem n (List.mem_cons_of_mem m hn)) htmp' hInv' hOrd'

theorem invA_init (nodes : List GNode) : InvA nodes ⟨[], [], []⟩ := by
  refine ⟨?_, ?_, ?_, ?_⟩
  · intro n h; cases h
  · simp
  · intro v hv; cases hv
  · intro n h; cases h

theorem ordInv_init (nodes : List GNode) (edges : List Edge) :
    OrdInv nodes edges ⟨[], [], []⟩ := by
  intro v hv; cases hv

theorem topologicalSort_state (nodes : List GNode) (edges : List Edge) :
    topologicalSort nodes edges =
      ((nodes.foldl
        (fun acc n => if n.id ∈ acc.visited then acc
          else visit nodes edges (nodes.length + edges.length + 1) n.id acc)
        ((nodes.filter (fun n => !(edges.any (fun e => e.target == n.id)) ||
            n.data.blockType == "DataLoader")).foldl
          (fun acc n => visit nodes edges (nodes.length + edges.length + 1) n.id acc)
          ⟨[], [], []⟩)).sorted) := rfl

theorem topologicalSort_perm (nodes : List GNode) (edges : List Edge)
    (hnd : (nodes.map GNode.id).Nodup) : (topologicalSort nodes edges).Perm nodes := by
  rw [topologicalSort_state]
  set fuel := nodes.length + edges.length + 1 with hfueldef
  set startNodes := nodes.filter (fun n => !(edges.any (fun e => e.target == n.id)) ||
    n.data.blockType == "DataLoader") with hstartdef
  set s1 := startNodes.foldl (fun acc n => visit nodes edges fuel n.id acc)
    (⟨[], [], []⟩ : TSState) with hs1def
  set s2 := nodes.foldl (fun acc n => if n.id ∈ acc.visited then acc
    else visit nodes edges fuel n.id acc) s1 with hs2def
  have htmp1 : s1.temp = [] := by
    rw [hs1def]; exact fold1_temp nodes edges fuel startNodes ⟨[], [], []⟩
  have hInv1 : InvA nodes s1 := by
    rw [hs1def]
    exact fold1_invA nodes edges hnd fuel startNodes ⟨[], [], []⟩ (invA_init nodes)
  have hInv2 : InvA nodes s2 := by
    rw [hs2def]
    exact fold2_invA nodes edges hnd fuel nodes s1 hInv1
  have hall : ∀ n ∈ nodes, n.id ∈ s2.visited := by
    rw [hs2def]
    exact fold2_allVisited nodes edges fuel (by omega) nodes s1 htmp1
  obtain ⟨hA1, hA2, hA3, hA4⟩ := hInv2
  have hiff : ∀ x, x ∈ s2.sorted ↔ x ∈ nodes := by
    intro x
    constructor
    · exact hA1 x
    · intro hx
      exact hA3 x.id (hall x hx) x hx rfl
  have hnds : s2.sorted.Nodup := List.Nodup.of_map GNode.id hA2
  have hndn : nodes.Nodup := List.Nodup.of_map GNode.id hnd
  exact (List.perm_ext_iff_of_nodup hnds hndn).mpr hiff

theorem topologicalSort_order (nodes : List GNode) (edges : List Edge)
    (hnd : (nodes.map GNode.id).Nodup)
    (hacyc : ∀ v, ¬ Relation.TransGen (edgeStep edges) v v) :
    ∀ e ∈ edges, e.source ∈ nodes.map GNode.id → e.target ∈ nodes.map GNode.id →
      BeforeIds e.source e.target (topologicalSort nodes edges) := by
  intro e he hsrc htgt
  rw [topologicalSort_state]
  set fuel := nodes.length + edges.length + 1 with hfueldef
  set startNodes := nodes.filter (fun n => !(edges.any (fun e => e.target == n.id)) ||
    n.data.blockType == "DataLoader") with hstartdef
  set s1 := startNodes.foldl (fun acc n => visit nodes edges fuel n.id acc)
    (⟨[], [], []⟩ : TSState) with hs1def
  set s2 := nodes.foldl (fun acc n => if n.id ∈ acc.visited then acc
    else visit nodes edges fuel n.id acc) s1 with hs2def
  have hfuelge : (allIds nodes edges).length + 1 ≤ fuel := by
    rw [allIds_length]
  have htmp1 : s1.temp = [] := by
    rw [hs1def]; exact fold1_temp nodes edges fuel startNodes ⟨[], [], []⟩
  have hInv1 : InvA nodes s1 := by
    rw [hs1def]
    exact fold1_invA nodes edges hnd fuel startNodes ⟨[], [], []⟩ (invA_init nodes)
  have hOrd1 : OrdInv nodes edges s1 := by
    rw [hs1def]
    exact fold1_ordInv nodes edges hnd hacyc fuel hfuelge startNodes ⟨[], [], []⟩
      (fun n hn => List.mem_of_mem_filter hn) rfl (invA_init nodes)
      (ordInv_init nodes edges)
  have hOrd2 : OrdInv nodes edges s2 := by
    rw [hs2def]
    exact fold2_ordInv nodes edges hnd hacyc fuel hfuelge nodes s1 (fun n hn => hn)
      htmp1 hInv1 hOrd1
  have hall : ∀ n ∈ nodes, n.id ∈ s2.visited := by
    rw [hs2def]
    exact fold2_allVisited nodes edges fuel (by omega) nodes s1 htmp1
  rcases List.mem_map.mp htgt with ⟨m, hm, hmid⟩
  have hv : e.target ∈ s2.visited := by rw [← hmid]; exact hall m hm
  exact hOrd2 e.target hv e he rfl hsrc htgt

/-! ## Helper lemmas for the remaining claims -/

theorem sum_range_listQ (f : Nat → ℚ) :
    ∀ n : Nat, (∑ i ∈ Finset.range n, f i) = ((List.range n).map f).sum := by
  intro n
  induction n with
  | zero => simp
  | succ m ih => rw [Finset.sum_range_succ, List.range_succ]; simp [ih]

theorem foldl_add_shift (g : Nat → ℚ) :
    ∀ (l : List Nat) (init : ℚ),
      l.foldl (fun acc i => acc + g i) init = init + (l.map g).sum := by
  intro l
  induction l with
  | nil => intro init; simp
  | cons a as ih => intro init; simp [ih]; ring

theorem sum_map_negQ (f : Nat → ℚ) :
    ∀ l : List Nat, (l.map (fun i => -(f i))).sum = -((l.map f).sum) := by
  intro l
  induction l with
  | nil => simp
  | cons a as ih => simp [ih]; ring

/-- The observed behavior of the epoch loop under a stop request that
first reads false at boundary check `k`. -/
theorem trainEpochs_epochs (data : Nat → TrainingMetrics) (k : Nat) :
    ∀ (n e : Nat),
      (trainEpochs (fun i => decide (k ≤ i)) data n e).map TrainingMetrics.epoch =
        List.range' (e + 1) (min n (k - e)) := by
  intro n
  induction n with
  | zero => intro e; simp [trainEpochs]
  | succ m ih =>
    intro e
    by_cases hke : k ≤ e
    · have hstop : (decide (k ≤ e)) = true := by simpa using hke
      have hmin : min (m + 1) (k - e) = 0 := by omega
      simp [trainEpochs, hstop, hmin]
    · have hstop : (decide (k ≤ e)) = false := by simpa using hke
      have hmin : min (m + 1) (k - e) = min m (k - (e + 1)) + 1 := by omega
      simp only [trainEpochs, hstop, if_false, Bool.false_eq_true, List.map_cons]
      rw [ih (e + 1), hmin, List.range'_succ]

theorem trainEpochs_length (data : Nat → TrainingMetrics) (k : Nat) (n e : Nat) :
    (trainEpochs (fun i => decide (k ≤ i)) data n e).length = min n (k - e) := by
  have := trainEpochs_epochs data k n e
  have hlen := congrArg List.length this
  simpa using hlen

/-- Inference-mode layer computation neither consumes nor depends on the
random stream. -/
theorem computeLayerOutput_inference (env : NumEnv) (layer : Layer) (input rng : List ℚ) :
    computeLayerOutput env false layer input rng =
      ((computeLayerOutput env false layer input []).1, rng) := by
  cases layer <;> simp [computeLayerOutput]

theorem forward_inference_rng (env : NumEnv) :
    ∀ (ls : List Layer) (x r r' : List ℚ),
      (ls.foldl (fun acc l => computeLayerOutput env false l acc.1 acc.2) (x, r)).1 =
        (ls.foldl (fun acc l => computeLayerOutput env false l acc.1 acc.2) (x, r')).1 := by
  intro ls
  induction ls with
  | nil => intro x r r'; rfl
  | cons l rest ih =>
    intro x r r'
    simp only [List.foldl_cons]
    rw [computeLayerOutput_inference env l x r, computeLayerOutput_inference env l x r']
    exact ih _ _ _

/-- What one gradient-update step may change in a layer: a dense layer
keeps its unit count, activation and bias (only the weights array may
differ); any other layer is identical. -/
def layerFrame : Layer → Layer → Prop
  | .dense units activation _ bias, .dense units' activation' _ bias' =>
    units = units' ∧ activation = activation' ∧ bias = bias'
  | l, l' => l = l'

theorem backpropLayersRev_frame :
    ∀ (ls : List Layer) (rng : List ℚ),
      List.Forall₂ layerFrame ls (backpropLayersRev ls rng).1 := by
  intro ls
  induction ls with
  | nil => intro rng; exact List.Forall₂.nil
  | cons l rest ih =>
    intro rng
    cases l with
    | dense units activation weights bias =>
      simp only [backpropLayersRev]
      exact List.Forall₂.cons ⟨rfl, rfl, rfl⟩ (ih _)
    | inputL shape batchSize =>
      simp only [backpropLayersRev]
      exact List.Forall₂.cons rfl (ih _)
    | conv2d filters kh kw weights bias =>
      simp only [backpropLayersRev]
      exact List.Forall₂.cons rfl (ih _)
    | maxpool2d ph pw =>
      simp only [backpropLayersRev]
      exact List.Forall₂.cons rfl (ih _)
    | flatten =>
      simp only [backpropLayersRev]
      exact List.Forall₂.cons rfl (ih _)
    | dropout rate =>
      simp only [backpropLayersRev]
      exact List.Forall₂.cons rfl (ih _)
    | activationL activation =>
      simp only [backpropLayersRev]
      exact List.Forall₂.cons rfl (ih _)
    | batchnorm gamma beta =>
      simp only [backpropLayersRev]
      exact List.Forall₂.cons rfl (ih _)

theorem backpropagate_frame (outputGrad : List ℚ) (model : Model) (rng : List ℚ) :
    List.Forall₂ layerFrame model.layers (backpropagate outputGrad model rng).layers := by
  unfold backpropagate
  have h := backpropLayersRev_frame model.layers.reverse rng
  have h2 := List.rel_reverse h
  rw [List.reverse_reverse] at h2
  exact h2

/-- The dtype subtyping chain of the spec: `bool ⊆ int32 ⊆ float32`,
reflexively and transitively. -/
def dtypeLE (source target : Dtype) : Bool :=
  match source, target with
  | .bool, _ => true
  | .int32, .int32 => true
  | .int32, .float32 => true
  | .float32, .float32 => true
  | _, _ => false

theorem dtypeCheck_none_iff : ∀ source target : Dtype,
    dtypeCheck source target = none ↔ dtypeLE source target = true := by
  intro source target
  cases source <;> cases target <;> decide

theorem validateConnection_dtype_error (sourceBlock targetBlock : Block)
    (sourcePort targetPort : String) (a b : Dtype)
    (h : (validateConnection sourceBlock sourcePort targetBlock targetPort).error =
      some (.dtypeMismatch a b)) : dtypeLE a b = false := by
  unfold validateConnection at h
  split at h
  · simp at h
  · simp at h
  split at h
  · simp at h
  · simp at h
  rename_i sourcePortDef targetPortDef hfindSrc hfindTgt
  split at h
  case _ e h5 =>
    simp only [Option.some.injEq] at h
    subst h
    unfold dtypeCheck at h5
    by_cases hc : sourcePortDef.shape.dtype ≠ targetPortDef.shape.dtype ∧
        ¬ (targetPortDef.shape.dtype ∈ getCompatibleTypes sourcePortDef.shape.dtype)
    · rw [if_pos hc] at h5
      simp only [Option.some.injEq, VError.dtypeMismatch.injEq] at h5
      obtain ⟨ha, hb⟩ := h5
      subst ha; subst hb
      have hne : dtypeCheck sourcePortDef.shape.dtype targetPortDef.shape.dtype ≠ none := by
        unfold dtypeCheck
        rw [if_pos hc]
        simp
      cases hLE : dtypeLE sourcePortDef.shape.dtype targetPortDef.shape.dtype with
      | false => rfl
      | true =>
        exact absurd ((dtypeCheck_none_iff sourcePortDef.shape.dtype
          targetPortDef.shape.dtype).mpr hLE) hne
    · rw [if_neg hc] at h5; cases h5
  case _ h5 =>
    dsimp only [] at h
    split at h
    · rcases hE : (validateShapeCompatibility sourcePortDef.shape targetPortDef.shape
          sourceBlock.parameters targetBlock.parameters).error with _ | e2 <;>
        rw [hE] at h <;> simp at h
    · simp at h

/-- One `validateGraph` step on a connection with a missing endpoint
leaves the result list untouched. -/
theorem validateGraph_step_skip (nodes : List GNode) (acc : List ValidationResult)
    (c : Connection)
    (hc : nodes.find? (fun n => n.id == c.source) = none ∨
      nodes.find? (fun n => n.id == c.target) = none) :
    (match nodes.find? (fun n => n.id == c.source),
           nodes.find? (fun n => n.id == c.target) with
      | some sourceNode, some targetNode =>
        let result := validateConnection sourceNode.data c.sourceHandle
          targetNode.data c.targetHandle
        if !result.isValid then
          acc ++ [{ result with
            error := some (.graphContext sourceNode.data.label targetNode.data.label
              (result.error.getD .undef)) }]
        else acc
      | _, _ => acc) = acc := by
  rcases hc with hc | hc
  · rw [hc]
  · rw [hc]
    cases nodes.find? (fun n => n.id == c.source) <;> rfl

theorem validateGraph_foldl_skip (nodes : List GNode) :
    ∀ (connections : List Connection) (acc : List ValidationResult),
      (∀ c ∈ connections, nodes.find? (fun n => n.id == c.source) = none ∨
        nodes.find? (fun n => n.id == c.target) = none) →
      connections.foldl
        (fun results connection =>
          match nodes.find? (fun n => n.id == connection.source),
                nodes.find? (fun n => n.id == connection.target) with
          | some sourceNode, some targetNode =>
            let result := validateConnection sourceNode.data connection.sourceHandle
              targetNode.data connection.targetHandle
            if !result.isValid then
              results ++ [{ result with
                error := some (.graphContext sourceNode.data.label targetNode.data.label
                  (result.error.getD .undef)) }]
            else results
          | _, _ => results) acc = acc := by
  intro connections
  induction connections with
  | nil => intro acc _; rfl
  | cons c rest ih =>
    intro acc hall
    simp only [List.foldl_cons]
    rw [validateGraph_step_skip nodes acc c (hall c (List.mem_cons_self c rest))]
    exact ih acc (fun c' hc' => hall c' (List.mem_cons_of_mem c hc'))

/-- A numeric environment with identity transcendental slots, used for
models that never reach them. -/
def idNumEnv : NumEnv := ⟨fun x => x, fun x => x, fun x => x⟩

/-- A one-layer compiled model: a single dropout layer with rate 0.5. -/
def dropModel : Model := ⟨[Layer.dropout (1 / 2)]⟩

/-! ## Claim theorems -/

/-- Claim C1: for every node set (distinct ids) and edge set,
`topologicalSort` returns every input node exactly once (a permutation of
the node list), and on an acyclic graph every edge whose source and
target are both in the node set has its source placed before its target
in the returned order.  Termination is witnessed by the function being
total. -/
theorem topologicalSort_correct (nodes : List GNode) (edges : List Edge)
    (hnd : (nodes.map GNode.id).Nodup) :
    (topologicalSort nodes edges).Perm nodes ∧
    ((∀ v, ¬ Relation.TransGen (edgeStep edges) v v) →
      ∀ e ∈ edges, e.source ∈ nodes.map GNode.id → e.target ∈ nodes.map GNode.id →
        BeforeIds e.source e.target (topologicalSort nodes edges)) :=
  ⟨topologicalSort_perm nodes edges hnd,
    fun hacyc => topologicalSort_order nodes edges hnd hacyc⟩

/-- A two-node graph node used to instantiate the C1 theorem. -/
def tsNodeA : GNode := ⟨"a", { blockType := "Dense" }⟩

/-- A second graph node used to instantiate the C1 theorem. -/
def tsNodeB : GNode := ⟨"b", { blockType := "Dense" }⟩

/-- The edge `a → b` used to instantiate the C1 theorem. -/
def tsEdgeAB : Edge := ⟨"a", "b"⟩

theorem topologicalSort_correct_witness :
    (topologicalSort [tsNodeA, tsNodeB] [tsEdgeAB]).Perm [tsNodeA, tsNodeB] ∧
    BeforeIds "a" "b" (topologicalSort [tsNodeA, tsNodeB] [tsEdgeAB]) := by
  have hnd : (([tsNodeA, tsNodeB]).map GNode.id).Nodup := by decide
  have hstep : ∀ x y, edgeStep [tsEdgeAB] x y → x = "a" ∧ y = "b" := by
    intro x y h
    obtain ⟨e, he, hs, ht⟩ := h
    rw [List.mem_singleton] at he
    subst he
    exact ⟨by rw [← hs]; rfl, by rw [← ht]; rfl⟩
  have hboth : ∀ x y, Relation.TransGen (edgeStep [tsEdgeAB]) x y → x = "a" ∧ y = "b" := by
    intro x y h
    induction h with
    | single h1 => exact hstep _ _ h1
    | tail _ h2 ih => exact ⟨ih.1, (hstep _ _ h2).2⟩
  have hacyc : ∀ v, ¬ Relation.TransGen (edgeStep [tsEdgeAB]) v v := by
    intro v hv
    have hb := hboth v v hv
    have : ("a" : String) = "b" := hb.1 ▸ hb.2
    exact absurd this (by decide)
  have h := topologicalSort_correct [tsNodeA, tsNodeB] [tsEdgeAB] hnd
  refine ⟨h.1, ?_⟩
  exact h.2 hacyc tsEdgeAB (List.mem_singleton_self _) (by decide) (by decide)

/-- Claim C2 (counterexample): connecting a CrossEntropy node's rank-0
`loss` output into a Dense node's rank-2 `input` is NOT rejected: the
result is valid and carries no error, because the Dense input template
`[null, -1]` contains the dynamic placeholder `-1`, which turns the
rank-mismatch branch into the valid-with-warning branch. -/
theorem crossEntropyToDense_not_rejected :
    (validateConnection { blockType := "CrossEntropy" } "loss"
      { blockType := "Dense" } "input").isValid = true ∧
    (validateConnection { blockType := "CrossEntropy" } "loss"
      { blockType := "Dense" } "input").error = none :=
  ⟨rfl, rfl⟩

/-- Claim C2 (amended): the CrossEntropy `loss` → Dense `input` connection
passes validation: the shape check takes the dynamic-placeholder branch
(producing the runtime-inference warning, which `validateConnection`'s
success path then drops), so the overall result is valid with no error
and no warning. -/
theorem crossEntropyToDense_valid :
    validateConnection { blockType := "CrossEntropy" } "loss"
        { blockType := "Dense" } "input" =
      { isValid := true, error := none, warning := none,
        inferredShape := some { dimensions := [], dtype := .float32 } } ∧
    validateShapeCompatibility { dimensions := [], dtype := .float32 }
        { dimensions := [none, some (-1)], dtype := .float32 } {} {} =
      { isValid := true, warning := some "Shape will be inferred at runtime" } :=
  ⟨rfl, rfl⟩

/-- Claim C3: the dtype check of `validateConnection` accepts exactly the
subtyping chain bool ⊆ int32 ⊆ float32: bool→float32 and bool→int32 are
never rejected on dtype grounds, float32→int32 always is (shown both on
the check itself, on a concrete Dense→CrossEntropy connection, and as:
any dtype-mismatch error produced by `validateConnection` is outside the
chain). -/
theorem dtype_chain_correct :
    (∀ source target : Dtype, dtypeCheck source target = none ↔ dtypeLE source target = true) ∧
    dtypeCheck .bool .float32 = none ∧
    dtypeCheck .bool .int32 = none ∧
    dtypeCheck .float32 .int32 = some (.dtypeMismatch .float32 .int32) ∧
    validateConnection { blockType := "Dense" } "output"
        { blockType := "CrossEntropy" } "targets" =
      { isValid := false, error := some (.dtypeMismatch .float32 .int32) } ∧
    (∀ (sourceBlock targetBlock : Block) (sourcePort targetPort : String) (a b : Dtype),
      (validateConnection sourceBlock sourcePort targetBlock targetPort).error =
        some (.dtypeMismatch a b) → dtypeLE a b = false) :=
  ⟨dtypeCheck_none_iff, rfl, rfl, rfl, rfl, validateConnection_dtype_error⟩

theorem dtype_chain_correct_witness : dtypeLE .float32 .int32 = false :=
  dtype_chain_correct.2.2.2.2.2 { blockType := "Dense" } { blockType := "CrossEntropy" }
    "output" "targets" .float32 .int32 rfl

/-- Claim C4: MaxPooling2D shape inference floor-divides each concrete
spatial dimension by the pool size and preserves the batch and channel
slots: the dimension rewrite maps `(batch, 28, 28, 1)` to
`(batch, 14, 14, 1)` at `pool_size = 2` and `(b, x, y, c)` to
`(b, ⌊x/p⌋, ⌊y/p⌋, c)` in general; the runtime's
`calculateOutputShape` maps input shape `[28, 28, 1]` to `[14, 14, 1]`;
on the catalog's all-dynamic output template the spatial slots are left
unknown. -/
theorem maxPooling_shape_inference :
    maxPoolInfer 2 [none, some 28, some 28, some 1] = [none, some 14, some 14, some 1] ∧
    (∀ (u batchDim chanDim : Option Int) (x y : Nat),
      maxPoolInfer (jsOrInt u 2) [batchDim, some (x : Int), some (y : Int), chanDim] =
        [batchDim, some (Int.fdiv (x : Int) (jsOrInt u 2)),
          some (Int.fdiv (y : Int) (jsOrInt u 2)), chanDim]) ∧
    calculateOutputShape ⟨"mp", "MaxPooling2D", {}⟩ [("src", [28, 28, 1])] [⟨"src", "mp"⟩] =
      [14, 14, 1] ∧
    (∀ (p : Params), inferOutputShape { blockType := "MaxPooling2D", parameters := p } "output" =
      some { dimensions := [none, some (-1), some (-1), some (-1)], dtype := .float32 }) := by
  refine ⟨rfl, ?_, rfl, fun p => rfl⟩
  intro u batchDim chanDim x y
  have hx : ((x : Int) = -1) = False := by simp
  have hy : ((y : Int) = -1) = False := by simp
  simp [maxPoolInfer, hx, hy]

/-- Claim C5: when `stopTraining` is observed from the boundary check of
iteration `k` onward (the stop was requested while epoch `k` ran, so the
flag is still true at checks `0 .. k-1`), a `trainModel` run of
`epochs ≥ k` epochs emits `onEpochEnd` exactly for epochs `1 .. k`, never
for a later epoch, and hands `onTrainingComplete` a history of length
exactly `k`; in particular stopping during epoch 3 of a 10-epoch run
yields history length exactly 3. -/
theorem training_stop_at_epoch (epochs k : Nat) (data : Nat → TrainingMetrics)
    (hk : k ≤ epochs) :
    (trainModelHistory epochs (fun i => decide (k ≤ i)) data).length = k ∧
    (trainModelHistory epochs (fun i => decide (k ≤ i)) data).map TrainingMetrics.epoch =
      List.range' 1 k ∧
    (∀ m ∈ trainModelHistory epochs (fun i => decide (k ≤ i)) data, m.epoch ≤ k) := by
  unfold trainModelHistory
  have hlen := trainEpochs_length data k epochs 0
  have hmap := trainEpochs_epochs data k epochs 0
  have hmin : min epochs (k - 0) = k := by omega
  rw [hmin] at hlen hmap
  refine ⟨hlen, hmap, ?_⟩
  intro m hm
  have hmem := List.mem_map_of_mem TrainingMetrics.epoch hm
  rw [hmap] at hmem
  have := List.mem_range'_1.mp hmem
  omega

theorem training_stop_at_epoch_witness :
    (trainModelHistory 10 (fun i => decide (3 ≤ i))
      (fun _ => ⟨0, 0, 0, 0, 0, 0, 0⟩)).length = 3 :=
  (training_stop_at_epoch 10 3 (fun _ => ⟨0, 0, 0, 0, 0, 0, 0⟩) (by omega)).1

/-- Claim C6 (counterexample): during training (`isTraining = true`, as
set by `trainModel`), a model containing a dropout layer makes
`forwardPass` non-deterministic: on the same model and the same input
vector, two different ambient random streams produce different outputs,
so repeated calls are not bit-identical. -/
theorem forwardPass_training_nondeterministic :
    (forwardPassCore idNumEnv true dropModel [1] [(9 : ℚ) / 10]).1 ≠
      (forwardPassCore idNumEnv true dropModel [1] [(1 : ℚ) / 10]).1 := by
  have h1 : (forwardPassCore idNumEnv true dropModel [1] [(9 : ℚ) / 10]).1 = [2] := by
    simp [forwardPassCore, dropModel, computeLayerOutput, dropoutCore, List.range_succ]
    norm_num
  have h2 : (forwardPassCore idNumEnv true dropModel [1] [(1 : ℚ) / 10]).1 = [0] := by
    simp [forwardPassCore, dropModel, computeLayerOutput, dropoutCore, List.range_succ]
    norm_num
  rw [h1, h2]
  simp

/-- Claim C6 (amended): `forwardPass` never mutates the model (the
compiled layers, hence every weight, bias, gamma and beta tensor, are
unchanged in the post-state), and in inference mode (`isTraining =
false`) it is deterministic: the output does not depend on the ambient
random stream, so identical weights and identical input give identical
output across repeated calls.  During training a dropout layer consults
the random stream, so repeated calls may differ (see the
counterexample). -/
theorem forwardPass_inference_pure :
    (∀ (env : NumEnv) (model : Model) (input rng rng' : List ℚ),
      (forwardPassCore env false model input rng).1 =
        (forwardPassCore env false model input rng').1) ∧
    (∀ (env : NumEnv) (st : RTState) (input : List ℚ),
      (forwardPassS env st input).2.model = st.model ∧
        (forwardPassS env st input).2.isTraining = st.isTraining) := by
  constructor
  · intro env model input rng rng'
    unfold forwardPassCore
    exact forward_inference_rng env model.layers input rng rng'
  · intro env st input
    exact ⟨rfl, rfl⟩

/-- Claim C7: `computeLoss` with the cross-entropy selector returns
`-Σ_{i : t[i] > 0} t[i] · log(max(p[i], 1e-15))` (the argument of `log`
is floored at `1e-15`), and with the MSE selector returns
`(Σ_i (p[i] - t[i])²) / n`, for prediction and target vectors of equal
length `n`. -/
theorem computeLoss_formulas (log : ℚ → ℚ) (predictions targets : List ℚ)
    (_hlen : targets.length = predictions.length) :
    computeLoss log predictions targets "categoricalCrossentropy" =
      -(∑ i ∈ Finset.range predictions.length,
        if 0 < targets.getD i 0 then
          targets.getD i 0 * log (max (predictions.getD i 0) (1 / 10 ^ 15)) else 0) ∧
    computeLoss log predictions targets "meanSquaredError" =
      (∑ i ∈ Finset.range predictions.length,
        (predictions.getD i 0 - targets.getD i 0) ^ 2) / (predictions.length : ℚ) := by
  constructor
  · show (List.range predictions.length).foldl
      (fun loss i =>
        if 0 < targets.getD i 0 then
          loss - targets.getD i 0 * log (max (predictions.getD i 0) (1 / 10 ^ 15))
        else loss) 0 = _
    have hfun : (fun (loss : ℚ) (i : Nat) =>
        if 0 < targets.getD i 0 then
          loss - targets.getD i 0 * log (max (predictions.getD i 0) (1 / 10 ^ 15))
        else loss) =
        (fun acc i => acc +
          (if 0 < targets.getD i 0 then
            -(targets.getD i 0 * log (max (predictions.getD i 0) (1 / 10 ^ 15))) else 0)) := by
      funext acc i
      by_cases h : 0 < targets.getD i 0
      · rw [if_pos h, if_pos h, sub_eq_add_neg]
      · rw [if_neg h, if_neg h, add_zero]
    rw [hfun, foldl_add_shift, zero_add, sum_range_listQ]
    have hneg : (fun i => if 0 < targets.getD i 0 then
        -(targets.getD i 0 * log (max (predictions.getD i 0) (1 / 10 ^ 15))) else 0) =
        (fun i => -(if 0 < targets.getD i 0 then
          targets.getD i 0 * log (max (predictions.getD i 0) (1 / 10 ^ 15)) else 0)) := by
      funext i
      by_cases h : 0 < targets.getD i 0
      · rw [if_pos h, if_pos h]
      · rw [if_neg h, if_neg h, neg_zero]
    rw [hneg]
    exact sum_map_negQ _ (List.range predictions.length)
  · show ((List.range predictions.length).foldl
      (fun mse i => mse + (predictions.getD i 0 - targets.getD i 0) ^ 2) 0)
        / (predictions.length : ℚ) = _
    rw [foldl_add_shift, zero_add, sum_range_listQ]

theorem computeLoss_formulas_witness :
    ([(1 : ℚ)].length = [(1 : ℚ) / 2].length) ∧
    (computeLoss (fun x => x) [(1 : ℚ) / 2] [(1 : ℚ)] "categoricalCrossentropy" =
      -(∑ i ∈ Finset.range [(1 : ℚ) / 2].length,
        if 0 < [(1 : ℚ)].getD i 0 then
          [(1 : ℚ)].getD i 0 * (max ([(1 : ℚ) / 2].getD i 0) (1 / 10 ^ 15)) else 0) ∧
    computeLoss (fun x => x) [(1 : ℚ) / 2] [(1 : ℚ)] "meanSquaredError" =
      (∑ i ∈ Finset.range [(1 : ℚ) / 2].length,
        ([(1 : ℚ) / 2].getD i 0 - [(1 : ℚ)].getD i 0) ^ 2) / ([(1 : ℚ) / 2].length : ℚ)) :=
  ⟨rfl, computeLoss_formulas (fun x => x) [(1 : ℚ) / 2] [(1 : ℚ)] rfl⟩

/-- Claim C8: for every Dense node, `inferOutputShape` on the `output`
port sets the last (second) slot of the inferred shape to the node's
`units` parameter — 64 when `units` is unset — and leaves the batch slot
dynamic (`null`), for any parameter bag. -/
theorem dense_inferOutputShape_units :
    (∀ p : Params, inferOutputShape { blockType := "Dense", parameters := p } "output" =
      some { dimensions := [none, some (jsOrInt p.units 64)], dtype := .float32 }) ∧
    inferOutputShape { blockType := "Dense" } "output" =
      some { dimensions := [none, some 64], dtype := .float32 } :=
  ⟨fun _ => rfl, rfl⟩

/-- Claim C9: `validateGraph` silently skips every connection whose
source id or target id matches no node: such a connection never
contributes a result entry (dropping it leaves the output unchanged),
and over a connection list referencing only absent endpoints the result
is the empty list. -/
theorem validateGraph_skips_dangling :
    (∀ (nodes : List GNode) (connections : List Connection),
      (∀ c ∈ connections, nodes.find? (fun n => n.id == c.source) = none ∨
        nodes.find? (fun n => n.id == c.target) = none) →
      validateGraph nodes connections = []) ∧
    (∀ (nodes : List GNode) (c : Connection) (cs : List Connection),
      (nodes.find? (fun n => n.id == c.source) = none ∨
        nodes.find? (fun n => n.id == c.target) = none) →
      validateGraph nodes (c :: cs) = validateGraph nodes cs) := by
  constructor
  · intro nodes connections hall
    exact validateGraph_foldl_skip nodes connections [] hall
  · intro nodes c cs hc
    unfold validateGraph
    simp only [List.foldl_cons]
    rw [validateGraph_step_skip nodes [] c hc]

theorem validateGraph_skips_dangling_witness :
    validateGraph [⟨"a", { blockType := "Dense" }⟩]
      [{ source := "x", target := "y" }] = [] :=
  validateGraph_skips_dangling.1 [⟨"a", { blockType := "Dense" }⟩]
    [{ source := "x", target := "y" }]
    (fun c hc => by
      rw [List.mem_singleton] at hc
      subst hc
      exact Or.inl rfl)

/-- Claim C10: one gradient-update step (`backpropagate`, and
`computeGradients` which calls it) may change only the `weights` arrays
of layers of type dense: every dense layer keeps its unit count,
activation and bias, and every layer of any other type — conv2d with its
weights and biases, batchnorm with its gamma and beta, and all weightless
layers — is returned identically. -/
theorem backpropagate_frame_dense_weights :
    ∀ (outputGrad : List ℚ) (model : Model) (rng predictions targets : List ℚ),
      List.Forall₂ layerFrame model.layers (backpropagate outputGrad model rng).layers ∧
      List.Forall₂ layerFrame model.layers
        (computeGradients model predictions targets rng).layers := by
  intro outputGrad model rng predictions targets
  refine ⟨backpropagate_frame outputGrad model rng, ?_⟩
  unfold computeGradients
  exact backpropagate_frame _ model rng

end BlockML
